import Mathlib

/-!
Shallow embedding of `src/python/custom_model.py`: a small TensorFlow script
with a custom layer (`SimpleLayer`), a custom binary cross-entropy loss
(`SimpleLoss`), a custom model with overridden `train_step` / `test_step`
(`CustomModel`), a custom callback (`SimpleCallback`), and a driver that
synthesizes random datasets, fits the model and evaluates it.

Tensors are embedded as lists (flattened) or as Mathlib matrices over `ℝ`;
the floating-point arithmetic of the source is idealized to exact real
arithmetic, with `Real.log` and `Real.exp` for `tf.math.log` / `tf.sigmoid`.
-/

noncomputable section

/-- `tf.clip_by_value x lo hi`: clamp `x` into the closed interval `[lo, hi]`. -/
def clip_by_value (x lo hi : ℝ) : ℝ := max lo (min x hi)

/-- `tf.reduce_mean` over a (flattened) tensor: sum of the elements divided by
their count. -/
def reduce_mean (l : List ℝ) : ℝ := l.sum / l.length

/-- `SimpleLoss.call` (custom_model.py lines 75-78): clip `y_pred` elementwise
into `[epsilon, 1 - epsilon]`, form the per-element cross entropy
`- y_true * log (y_pred + epsilon) - (1 - y_true) * log (1 - y_pred + epsilon)`
on the clipped predictions, and reduce by arithmetic mean. -/
def SimpleLoss.call (epsilon : ℝ) (y_true y_pred : List ℝ) : ℝ :=
  let clipped := y_pred.map (fun p => clip_by_value p epsilon (1 - epsilon))
  let bce := List.zipWith
    (fun yt yp => - yt * Real.log (yp + epsilon) - (1 - yt) * Real.log (1 - yp + epsilon))
    y_true clipped
  reduce_mean bce

/-- The per-element formula exactly as the specification's sentence states it:
`- y_true * log (clip(y_pred, eps, 1-eps) + eps)
 - (1 - y_true) * log (1 - clip(y_pred, eps, 1-eps) + eps)`. -/
def specBCEElem (epsilon yt yp : ℝ) : ℝ :=
  - yt * Real.log (clip_by_value yp epsilon (1 - epsilon) + epsilon)
  - (1 - yt) * Real.log (1 - clip_by_value yp epsilon (1 - epsilon) + epsilon)

/-- The loss as the specification states it: the arithmetic mean, over all
elements of the (equal-shaped) tensors, of `specBCEElem`. -/
def specBCEMean (epsilon : ℝ) (y_true y_pred : List ℝ) : ℝ :=
  (List.zipWith (specBCEElem epsilon) y_true y_pred).sum / y_true.length

/-- Claim C1: for equal-shaped `y_true`, `y_pred` and any configured epsilon,
`SimpleLoss.call` equals the arithmetic mean over all elements of
`- y_true * log (clip(y_pred, eps, 1-eps) + eps) - (1 - y_true) * log (1 - clip(y_pred, eps, 1-eps) + eps)`:
the prediction is first clipped into `[eps, 1-eps]` and an additional epsilon
is added inside each logarithm before the mean reduction. -/
theorem SimpleLoss_call_matches_spec (epsilon : ℝ) (y_true y_pred : List ℝ)
    (h : y_true.length = y_pred.length) :
    SimpleLoss.call epsilon y_true y_pred = specBCEMean epsilon y_true y_pred := by
  unfold SimpleLoss.call specBCEMean reduce_mean
  dsimp only
  have hzip : List.zipWith
      (fun yt yp => - yt * Real.log (yp + epsilon) - (1 - yt) * Real.log (1 - yp + epsilon))
      y_true (y_pred.map (fun p => clip_by_value p epsilon (1 - epsilon)))
      = List.zipWith (specBCEElem epsilon) y_true y_pred := by
    rw [List.zipWith_map_right]
    rfl
  rw [hzip, List.length_zipWith, h, min_self]

/-- Witness for C1 at the spec's hand-picked batch `y = [1, 0]`, `p = [0.9, 0.1]`
with the default epsilon `1e-7`. -/
theorem SimpleLoss_call_matches_spec_witness :
    SimpleLoss.call (1 / 10 ^ 7) [1, 0] [9 / 10, 1 / 10]
      = specBCEMean (1 / 10 ^ 7) [1, 0] [9 / 10, 1 / 10] :=
  SimpleLoss_call_matches_spec (1 / 10 ^ 7) [1, 0] [9 / 10, 1 / 10] (by simp)

lemma le_clip_by_value (x lo hi : ℝ) : lo ≤ clip_by_value x lo hi :=
  le_max_left lo (min x hi)

lemma clip_by_value_le (x lo hi : ℝ) (h : lo ≤ hi) : clip_by_value x lo hi ≤ hi :=
  max_le h (min_le_right x hi)

/-- An already-clipped prediction `yp ∈ [epsilon, 1 - epsilon]` together with a
label `yt ∈ [0, 1]` gives a nonnegative per-element cross entropy: both
logarithm arguments lie in `(0, 1]`, so both logarithms are nonpositive. -/
lemma bce_elem_nonneg (epsilon yt yp : ℝ) (he : 0 < epsilon)
    (hyt0 : 0 ≤ yt) (hyt1 : yt ≤ 1) (hyp1 : epsilon ≤ yp) (hyp2 : yp ≤ 1 - epsilon) :
    0 ≤ - yt * Real.log (yp + epsilon) - (1 - yt) * Real.log (1 - yp + epsilon) := by
  have hlog1 : Real.log (yp + epsilon) ≤ 0 :=
    Real.log_nonpos (by linarith) (by linarith)
  have hlog2 : Real.log (1 - yp + epsilon) ≤ 0 :=
    Real.log_nonpos (by linarith) (by linarith)
  nlinarith [mul_nonneg hyt0 (neg_nonneg.mpr hlog1),
    mul_nonneg (by linarith : (0 : ℝ) ≤ 1 - yt) (neg_nonneg.mpr hlog2)]

lemma forall_of_mem_zipWith {f : ℝ → ℝ → ℝ} {P : ℝ → Prop} :
    ∀ (l1 l2 : List ℝ), (∀ a ∈ l1, ∀ b ∈ l2, P (f a b)) →
      ∀ x ∈ List.zipWith f l1 l2, P x := by
  intro l1
  induction l1 with
  | nil => intro l2 _ x hx; simp at hx
  | cons a t ih =>
    intro l2 h x hx
    cases l2 with
    | nil => simp at hx
    | cons b t2 =>
      simp only [List.zipWith_cons_cons, List.mem_cons] at hx
      rcases hx with rfl | hx
      · exact h a (by simp) b (by simp)
      · exact ih t2 (fun a2 ha2 b2 hb2 => h a2 (by simp [ha2]) b2 (by simp [hb2])) x hx

/-- Claim C5: when every element of `y_true` and of `y_pred` lies in `[0, 1]`
(and the configured epsilon is a positive value at most 1/2, as the default
`1e-7` is), the loss is nonnegative. -/
theorem SimpleLoss_call_nonneg (epsilon : ℝ) (y_true y_pred : List ℝ)
    (he : 0 < epsilon) (he2 : epsilon ≤ 1 / 2)
    (hyt : ∀ a ∈ y_true, 0 ≤ a ∧ a ≤ 1) (hyp : ∀ a ∈ y_pred, 0 ≤ a ∧ a ≤ 1) :
    0 ≤ SimpleLoss.call epsilon y_true y_pred := by
  unfold SimpleLoss.call reduce_mean
  dsimp only
  apply div_nonneg
  · apply List.sum_nonneg
    apply forall_of_mem_zipWith
    intro a ha b hb
    obtain ⟨p, _, rfl⟩ := List.mem_map.mp hb
    exact bce_elem_nonneg epsilon a (clip_by_value p epsilon (1 - epsilon)) he
      (hyt a ha).1 (hyt a ha).2
      (le_clip_by_value p epsilon (1 - epsilon))
      (clip_by_value_le p epsilon (1 - epsilon) (by linarith))
  · exact Nat.cast_nonneg _

/-- Witness for C5: the loss at `y = [1, 0]`, `p = [0.9, 0.1]` with the default
epsilon `1e-7` is nonnegative. -/
theorem SimpleLoss_call_nonneg_witness :
    0 ≤ SimpleLoss.call (1 / 10 ^ 7) [1, 0] [9 / 10, 1 / 10] :=
  SimpleLoss_call_nonneg (1 / 10 ^ 7) [1, 0] [9 / 10, 1 / 10]
    (by norm_num) (by norm_num)
    (by intro a ha; fin_cases ha <;> norm_num)
    (by intro a ha; fin_cases ha <;> norm_num)

/-- Claim C6: for any input value (including predictions exactly 0 or 1 before
clipping) and any configured epsilon with `0 < epsilon ≤ 1/2`, both logarithm
arguments of the loss — `clip(x, eps, 1-eps) + eps` and
`1 - clip(x, eps, 1-eps) + eps` — lie in `[2*eps, 1]`, so neither logarithm is
ever evaluated at a nonpositive argument. -/
theorem clip_log_args_in_range (epsilon x : ℝ) (he : 0 < epsilon) (he2 : epsilon ≤ 1 / 2) :
    (2 * epsilon ≤ clip_by_value x epsilon (1 - epsilon) + epsilon
      ∧ clip_by_value x epsilon (1 - epsilon) + epsilon ≤ 1)
    ∧ (2 * epsilon ≤ 1 - clip_by_value x epsilon (1 - epsilon) + epsilon
      ∧ 1 - clip_by_value x epsilon (1 - epsilon) + epsilon ≤ 1) := by
  have hc1 : epsilon ≤ clip_by_value x epsilon (1 - epsilon) :=
    le_clip_by_value x epsilon (1 - epsilon)
  have hc2 : clip_by_value x epsilon (1 - epsilon) ≤ 1 - epsilon :=
    clip_by_value_le x epsilon (1 - epsilon) (by linarith)
  exact ⟨⟨by linarith, by linarith⟩, ⟨by linarith, by linarith⟩⟩

/-- Witness for C6 at the default epsilon `1e-7` and the degenerate prediction
`x = 0` (exactly zero before clipping). -/
theorem clip_log_args_in_range_witness :
    (2 * (1 / 10 ^ 7) ≤ clip_by_value 0 (1 / 10 ^ 7) (1 - 1 / 10 ^ 7) + 1 / 10 ^ 7
      ∧ clip_by_value 0 (1 / 10 ^ 7) (1 - 1 / 10 ^ 7) + 1 / 10 ^ 7 ≤ 1)
    ∧ (2 * (1 / 10 ^ 7) ≤ 1 - clip_by_value 0 (1 / 10 ^ 7) (1 - 1 / 10 ^ 7) + 1 / 10 ^ 7
      ∧ 1 - clip_by_value 0 (1 / 10 ^ 7) (1 - 1 / 10 ^ 7) + 1 / 10 ^ 7 ≤ 1) :=
  clip_log_args_in_range (1 / 10 ^ 7) 0 (by norm_num) (by norm_num)

/-- `tf.sigmoid`: the logistic function `1 / (1 + exp (-x))`. -/
def sigmoid (x : ℝ) : ℝ := 1 / (1 + Real.exp (-x))

/-- `SimpleLayer.call` (custom_model.py lines 66-67):
`tf.sigmoid (tf.matmul inputs w + b)`, with the bias row-broadcast.  The weight
matrix `w : (input_dim, units)` and bias `b : (units,)` are the parameters
allocated by `build`; after that one-time allocation they are plain inputs of
the computation, so they are passed here explicitly.  The result type records
the output shape `(N, units)`. -/
def SimpleLayer.call {N input_dim units : ℕ}
    (w : Matrix (Fin input_dim) (Fin units) ℝ) (b : Fin units → ℝ)
    (inputs : Matrix (Fin N) (Fin input_dim) ℝ) : Matrix (Fin N) (Fin units) ℝ :=
  Matrix.of fun i j => sigmoid ((inputs * w) i j + b j)

/-- Claim C8: for any input of shape `(N, input_dim)` and fixed parameters of
shape `(input_dim, units)` and `(units,)`, every entry `(i, j)` of the layer
output is `sigmoid (⟨row i of input, column j of weight⟩ + b j)` — i.e. the
layer returns `sigmoid (input · weight + bias)`, of shape `(N, units)` (the
result type), and deterministically: the output is a pure function of the
parameters and the input. -/
theorem SimpleLayer_call_eq_sigmoid_affine {N input_dim units : ℕ}
    (w : Matrix (Fin input_dim) (Fin units) ℝ) (b : Fin units → ℝ)
    (inputs : Matrix (Fin N) (Fin input_dim) ℝ) (i : Fin N) (j : Fin units) :
    SimpleLayer.call w b inputs i j
      = sigmoid ((∑ k, inputs i k * w k j) + b j) := by
  simp [SimpleLayer.call, Matrix.mul_apply]

lemma sigmoid_pos (x : ℝ) : 0 < sigmoid x := by
  unfold sigmoid
  positivity

lemma sigmoid_lt_one (x : ℝ) : sigmoid x < 1 := by
  unfold sigmoid
  rw [div_lt_one (by positivity)]
  linarith [Real.exp_pos (-x)]

/-- Claim C10: every entry of the layer output lies strictly between 0 and 1
(in exact arithmetic the logistic function never attains 0 or 1), so layer
outputs always lie in the open unit interval expected by the loss. -/
theorem SimpleLayer_call_mem_open_unit {N input_dim units : ℕ}
    (w : Matrix (Fin input_dim) (Fin units) ℝ) (b : Fin units → ℝ)
    (inputs : Matrix (Fin N) (Fin input_dim) ℝ) (i : Fin N) (j : Fin units) :
    0 < SimpleLayer.call w b inputs i j ∧ SimpleLayer.call w b inputs i j < 1 :=
  ⟨sigmoid_pos _, sigmoid_lt_one _⟩

/-- Python dict subscript access on a metrics mapping, modelled as lookup of
the first matching key in an association list. -/
def dictLookup (logs : List (String × ℝ)) (k : String) : Option ℝ :=
  (logs.find? (fun e => e.1 == k)).map Prod.snd

/-- `SimpleCallback.on_batch_end` (custom_model.py lines 82-83): evaluates
`logs['loss']` and prints the batch index together with that value.  Python's
`dict` subscript raises `KeyError` when the key is absent, modelled as
`Except.error`; the successful print is modelled as the pair of data it
emits. -/
def SimpleCallback.on_batch_end (batch : ℕ) (logs : List (String × ℝ)) :
    Except String (ℕ × ℝ) :=
  match dictLookup logs "loss" with
  | none => Except.error "KeyError: loss"
  | some v => Except.ok (batch, v)

/-- Counterexample to claim C2 as stated: on a metrics mapping with no
`"loss"` entry (here the empty mapping), `on_batch_end` is not a no-op — it
fails with a `KeyError`, because the source reads `logs['loss']` with a plain
subscript. -/
theorem on_batch_end_missing_loss_not_noop :
    SimpleCallback.on_batch_end 0 [] = Except.error "KeyError: loss" := rfl

/-- Claim C2 as amended: for every metrics mapping with no `"loss"` entry,
`on_batch_end` raises a `KeyError` (it performs no successful output, but it
does raise). -/
theorem on_batch_end_missing_loss_raises (batch : ℕ) (logs : List (String × ℝ))
    (h : dictLookup logs "loss" = none) :
    SimpleCallback.on_batch_end batch logs = Except.error "KeyError: loss" := by
  unfold SimpleCallback.on_batch_end
  rw [h]

/-- Witness for the amended C2 at batch 0 and the empty metrics mapping. -/
theorem on_batch_end_missing_loss_raises_witness :
    SimpleCallback.on_batch_end 0 [] = Except.error "KeyError: loss" :=
  on_batch_end_missing_loss_raises 0 [] rfl

/-- `tf.round`: round elementwise to the nearest integer, rounding halves to
the nearest even integer (banker's rounding, tf.round's documented
behavior). -/
def tfRound (x : ℝ) : ℝ :=
  if Int.fract x = 1 / 2 then
    (if ⌊x⌋ % 2 = 0 then (⌊x⌋ : ℝ) else (⌊x⌋ : ℝ) + 1)
  else ((round x : ℤ) : ℝ)

/-- Driver training-label construction (custom_model.py lines 92-93):
`y = tf.round (tf.random.normal [1000, 1])` — elementwise rounding of raw
standard-normal draws. -/
def trainLabels (raw : List ℝ) : List ℝ := raw.map tfRound

/-- Counterexample to claim C9 as stated: a standard-normal draw can take any
real value; at the possible draw `2`, the rounded training label is `2`, which
is neither 0 nor 1. -/
theorem trainLabels_not_binary :
    trainLabels [2] = [2] ∧ (2 : ℝ) ≠ 0 ∧ (2 : ℝ) ≠ 1 := by
  have hcast : ((2 : ℤ) : ℝ) = (2 : ℝ) := by norm_num
  have hfr : Int.fract (2 : ℝ) = 0 := by rw [← hcast, Int.fract_intCast]
  have hrd : round (2 : ℝ) = (2 : ℤ) := by rw [← hcast, round_intCast]
  refine ⟨?_, by norm_num, by norm_num⟩
  unfold trainLabels tfRound
  simp only [List.map_cons, List.map_nil, hfr, hrd]
  norm_num

/-- A draw below `-1/2` rounds to an integer at most `-1`: in the half-integer
case the floor is at most `-2` and the chosen even neighbor at most `-1`; in
the generic case `round v = ⌊v + 1/2⌋` is negative. -/
lemma tfRound_le_neg_one (v : ℝ) (h : v < -(1 / 2)) : tfRound v ≤ -1 := by
  unfold tfRound
  by_cases hf : Int.fract v = 1 / 2
  · rw [if_pos hf]
    have hv : (⌊v⌋ : ℝ) + 1 / 2 = v := by
      rw [← hf]
      exact Int.floor_add_fract v
    have l : ⌊v⌋ ≤ -2 := by
      have h1 : (⌊v⌋ : ℝ) < -1 := by linarith
      have h2 : ⌊v⌋ < -1 := by exact_mod_cast h1
      omega
    have lr : (⌊v⌋ : ℝ) ≤ -2 := by exact_mod_cast l
    by_cases he : ⌊v⌋ % 2 = 0
    · rw [if_pos he]
      linarith
    · rw [if_neg he]
      linarith
  · rw [if_neg hf]
    have hz : round v ≤ -1 := by
      rw [round_eq]
      have hlt : ⌊v + 1 / 2⌋ < 0 := Int.floor_lt.mpr (by push_cast; linarith)
      omega
    exact_mod_cast hz

/-- A draw at or above `3/2` rounds to an integer at least `2`: in the
half-integer case the floor is at least `1` and the chosen even neighbor at
least `2`; in the generic case `round v = ⌊v + 1/2⌋` is at least `2`. -/
lemma two_le_tfRound (v : ℝ) (h : 3 / 2 ≤ v) : 2 ≤ tfRound v := by
  unfold tfRound
  by_cases hf : Int.fract v = 1 / 2
  · rw [if_pos hf]
    have hv : (⌊v⌋ : ℝ) + 1 / 2 = v := by
      rw [← hf]
      exact Int.floor_add_fract v
    have l : 1 ≤ ⌊v⌋ := by
      have h1 : (0 : ℝ) < (⌊v⌋ : ℝ) := by linarith
      have h2 : (0 : ℤ) < ⌊v⌋ := by exact_mod_cast h1
      omega
    by_cases he : ⌊v⌋ % 2 = 0
    · rw [if_pos he]
      have l2 : 2 ≤ ⌊v⌋ := by omega
      have lr : (2 : ℝ) ≤ (⌊v⌋ : ℝ) := by exact_mod_cast l2
      linarith
    · rw [if_neg he]
      have lr : (1 : ℝ) ≤ (⌊v⌋ : ℝ) := by exact_mod_cast l
      linarith
  · rw [if_neg hf]
    have hz : 2 ≤ round v := by
      rw [round_eq]
      exact Int.le_floor.mpr (by push_cast; linarith)
    exact_mod_cast hz

/-- Claim C9 as amended: the training labels are roundings of normal draws,
and a rounded label lies in `{0, 1}` exactly when the raw draw lies in
`[-1/2, 3/2)`: every draw in that interval rounds to 0 or 1, and every draw
outside it (which a normal distribution produces) rounds to an integer
outside `{0, 1}`. -/
theorem tfRound_binary_iff_draw_in_range (v : ℝ) :
    (tfRound v = 0 ∨ tfRound v = 1) ↔ (-(1 / 2) ≤ v ∧ v < 3 / 2) := by
  constructor
  · intro h
    constructor
    · by_contra hc
      push_neg at hc
      have hb := tfRound_le_neg_one v hc
      rcases h with h | h <;> rw [h] at hb <;> linarith
    · by_contra hc
      push_neg at hc
      have hb := two_le_tfRound v hc
      rcases h with h | h <;> rw [h] at hb <;> linarith
  · rintro ⟨h1, h2⟩
    unfold tfRound
    by_cases hf : Int.fract v = 1 / 2
    · rw [if_pos hf]
      have hv : (⌊v⌋ : ℝ) + 1 / 2 = v := by
        rw [← hf]
        exact Int.floor_add_fract v
      have l1 : (-1 : ℤ) ≤ ⌊v⌋ := by
        have : (-1 : ℝ) ≤ (⌊v⌋ : ℝ) := by linarith
        exact_mod_cast this
      have l2 : ⌊v⌋ < 1 := by
        have : (⌊v⌋ : ℝ) < 1 := by linarith
        exact_mod_cast this
      have hcase : ⌊v⌋ = -1 ∨ ⌊v⌋ = 0 := by omega
      rcases hcase with h | h <;> rw [h] <;> norm_num
    · rw [if_neg hf]
      have hlo : (0 : ℤ) ≤ round v := by
        rw [round_eq]
        exact Int.floor_nonneg.mpr (by linarith)
      have hhi : round v < 2 := by
        rw [round_eq]
        exact Int.floor_lt.mpr (by push_cast; linarith)
      have hcase : round v = 0 ∨ round v = 1 := by omega
      rcases hcase with h | h <;> rw [h] <;> norm_num

/-- The datasets the driver builds: the synthesized training pair, the
synthesized test pair, and the pair actually wrapped into the dataset that is
passed to `model.evaluate`. -/
structure DriverDatasets where
  trainX : List (List ℝ)
  trainY : List ℝ
  testX : List (List ℝ)
  testY : List ℝ
  evalX : List (List ℝ)
  evalY : List ℝ

/-- Driver dataset wiring (custom_model.py lines 91-115) as a function of the
four random draws.  Training labels are the rounded normal draws (lines
92-93), test labels the rounded uniform draws (lines 113-114), and — exactly
as written at line 115 — the dataset passed to `model.evaluate` is built with
`tf.data.Dataset.from_tensor_slices((x, y))`, i.e. from the training tensors
`x` and `y`, while `x_test` and `y_test` go unused. -/
def driverDatasets (x : List (List ℝ)) (yRaw : List ℝ)
    (xTest : List (List ℝ)) (yTestRaw : List ℝ) : DriverDatasets :=
  let y := yRaw.map tfRound
  let yTest := yTestRaw.map tfRound
  { trainX := x, trainY := y, testX := xTest, testY := yTest,
    evalX := x, evalY := y }

/-- Claim C3 is refuted by the code (code bug): the dataset handed to
`evaluate` is built from the training tensors, not from the freshly
synthesized test tensors.  At a concrete run whose test draws differ from the
training draws, the evaluation pair equals the training pair and differs from
the test pair. -/
theorem driver_evaluates_on_training_data :
    ((driverDatasets [[0]] [0] [[1]] [1]).evalX,
        (driverDatasets [[0]] [0] [[1]] [1]).evalY)
      = ((driverDatasets [[0]] [0] [[1]] [1]).trainX,
        (driverDatasets [[0]] [0] [[1]] [1]).trainY)
    ∧ (driverDatasets [[0]] [0] [[1]] [1]).evalX
      ≠ (driverDatasets [[0]] [0] [[1]] [1]).testX := by
  refine ⟨rfl, ?_⟩
  simp [driverDatasets]

/-- A Keras metric object as the step runners use it: a display name, an
internal accumulator state (a pair of running values, e.g. total/count for the
loss mean or correct/total for binary accuracy), `update_state` fed a scalar
(how the metric named "loss" is fed), `update_state` fed a `(y, y_pred)` pair
(how every other metric is fed), and `result` reading off the aggregate. -/
structure Metric where
  name : String
  state : ℝ × ℝ
  updateScalar : ℝ × ℝ → ℝ → ℝ × ℝ
  updatePair : ℝ × ℝ → List ℝ → List ℝ → ℝ × ℝ
  result : ℝ × ℝ → ℝ

/-- The model's mutable state as seen by the step runners: the layer's weight
matrix and bias vector and the registered metric objects. -/
structure ModelState (input_dim units : ℕ) where
  w : Matrix (Fin input_dim) (Fin units) ℝ
  b : Fin units → ℝ
  metrics : List Metric

/-- Row-major flattening of a matrix tensor into a list of its elements. -/
def flattenM {n u : ℕ} (M : Matrix (Fin n) (Fin u) ℝ) : List ℝ :=
  (List.finRange n).flatMap (fun i => (List.finRange u).map (fun j => M i j))

/-- `CustomModel.train_step` (custom_model.py lines 24-40): forward pass
through the layer, scalar loss, gradient computation and one optimizer update,
then the metric loop — the metric named "loss" is fed the scalar loss, every
other metric the `(y, y_pred)` pair — returning the name-to-result mapping.
The gradient tape and `optimizer.apply` (lines 27, 31-33) are an external
autodiff/optimizer capability, abstracted as the `applyGradients` argument
mapping the current parameters and the batch to the updated parameters. -/
def CustomModel.train_step {input_dim units N : ℕ} (epsilon : ℝ)
    (applyGradients :
      Matrix (Fin input_dim) (Fin units) ℝ → (Fin units → ℝ) →
      Matrix (Fin N) (Fin input_dim) ℝ → Matrix (Fin N) (Fin units) ℝ →
      Matrix (Fin input_dim) (Fin units) ℝ × (Fin units → ℝ))
    (s : ModelState input_dim units)
    (x : Matrix (Fin N) (Fin input_dim) ℝ) (y : Matrix (Fin N) (Fin units) ℝ) :
    ModelState input_dim units × List (String × ℝ) :=
  let y_pred := SimpleLayer.call s.w s.b x
  let loss := SimpleLoss.call epsilon (flattenM y) (flattenM y_pred)
  let p := applyGradients s.w s.b x y
  let ms := s.metrics.map (fun m =>
    if m.name = "loss" then { m with state := m.updateScalar m.state loss }
    else { m with state := m.updatePair m.state (flattenM y) (flattenM y_pred) })
  (⟨p.1, p.2, ms⟩, ms.map (fun m => (m.name, m.result m.state)))

/-- `CustomModel.test_step` (custom_model.py lines 42-54): prints the
evaluation notice (the source's literal, with its typo), runs the forward pass
with `training=False`, computes the scalar loss, runs the same metric loop as
the training step, and returns the name-to-result mapping.  No gradient is
taken and no optimizer update occurs; the parameters are carried over
unchanged. -/
def CustomModel.test_step {input_dim units N : ℕ} (epsilon : ℝ)
    (s : ModelState input_dim units)
    (x : Matrix (Fin N) (Fin input_dim) ℝ) (y : Matrix (Fin N) (Fin units) ℝ) :
    String × ModelState input_dim units × List (String × ℝ) :=
  let notice := "Evalaution starts..."
  let y_pred := SimpleLayer.call s.w s.b x
  let loss := SimpleLoss.call epsilon (flattenM y) (flattenM y_pred)
  let ms := s.metrics.map (fun m =>
    if m.name = "loss" then { m with state := m.updateScalar m.state loss }
    else { m with state := m.updatePair m.state (flattenM y) (flattenM y_pred) })
  (notice, ⟨s.w, s.b, ms⟩, ms.map (fun m => (m.name, m.result m.state)))

/-- Claim C4: for every batch and every starting parameter state, the
evaluation step leaves the weight matrix and the bias vector unchanged — the
returned state carries exactly the parameters it was given, and no term of
`test_step` applies a gradient or optimizer update to them. -/
theorem test_step_preserves_params {input_dim units N : ℕ} (epsilon : ℝ)
    (s : ModelState input_dim units)
    (x : Matrix (Fin N) (Fin input_dim) ℝ) (y : Matrix (Fin N) (Fin units) ℝ) :
    (CustomModel.test_step epsilon s x y).2.1.w = s.w
      ∧ (CustomModel.test_step epsilon s x y).2.1.b = s.b :=
  ⟨rfl, rfl⟩

/-- Claim C7: the training step and the evaluation step have identical
metric-update semantics and the same result shape: for the same starting
state, batch and epsilon (and any gradient applier), the name-to-result
mappings they return are equal, and so are the updated metric objects — in
both, the metric named "loss" is fed the scalar loss and every other metric
the `(y, y_pred)` pair. -/
theorem train_test_metric_semantics_eq {input_dim units N : ℕ} (epsilon : ℝ)
    (applyGradients :
      Matrix (Fin input_dim) (Fin units) ℝ → (Fin units → ℝ) →
      Matrix (Fin N) (Fin input_dim) ℝ → Matrix (Fin N) (Fin units) ℝ →
      Matrix (Fin input_dim) (Fin units) ℝ × (Fin units → ℝ))
    (s : ModelState input_dim units)
    (x : Matrix (Fin N) (Fin input_dim) ℝ) (y : Matrix (Fin N) (Fin units) ℝ) :
    (CustomModel.train_step epsilon applyGradients s x y).2
        = (CustomModel.test_step epsilon s x y).2.2
      ∧ (CustomModel.train_step epsilon applyGradients s x y).1.metrics
        = (CustomModel.test_step epsilon s x y).2.1.metrics :=
  ⟨rfl, rfl⟩

end
